import Mathlib

/-!
Verification development for the cstore storage engine: a union of
content-addressed datapack stores with cross-store delta-chain resolution.

The repository fragment under version control here exposes only the binding
header (`hgext/extlib/cstore/py-structs.h`), which declares
`py_datapackstore` and `py_uniondatapackstore` and documents the lifetime
discipline for host-supplied store objects.  The engine itself
(`DatapackStore`, `UnionDatapackStore`, `PythonDataStore`) is specified by
the design document, so the definitions below are modelled from the spec,
faithful to its wording, and the theorems settle the spec's claims against
that model.
-/

namespace CStore

/-- Modelled from the spec: a Key is a fixed-size content/history identifier
with byte-wise equality; modelled as a natural number. -/
abbrev Key := Nat

/-- Modelled from the spec: raw byte content of a blob. -/
abbrev Content := List Nat

/-- Modelled from the spec: the payload bytes of one delta. -/
abbrev Payload := List Nat

/-- Modelled from the spec: a Delta is `{base_key : Option Key, payload}`;
`base = none` marks a full snapshot, the chain terminator. -/
structure Delta where
  base : Option Key
  payload : Payload
deriving DecidableEq, Repr

/-- Modelled from the spec: outcome of decoding one indexed payload inside a
single store: a good delta, a corrupt (undecodable) payload, or an
unreachable (host-backed) store. -/
inductive FetchResult where
  | good (d : Delta)
  | corrupt
  | unavailable
deriving DecidableEq, Repr

/-- Modelled from the spec: a single member store (SingleDatapackStore or
ExternalStoreAdapter behind the same capability set): an index telling which
keys are present, and a fetch function consulted for indexed keys. -/
structure Store where
  index : Key → Bool
  fetch : Key → FetchResult

/-- Modelled from the spec: result of `getDelta(key)` on a single store:
`NotFound` if the index lacks the key, `Corrupt` if decoding fails,
`Unavailable` if the underlying (external) store could not be reached. -/
inductive LookupResult where
  | found (d : Delta)
  | notFound
  | corrupt
  | unavailable
deriving DecidableEq, Repr

/-- Modelled from the spec: `getDelta` resolves the key through the index and
decodes the payload; a key absent from the index is `NotFound` without any
payload access. -/
def Store.getDelta (s : Store) (k : Key) : LookupResult :=
  if s.index k then
    match s.fetch k with
    | .good d => .found d
    | .corrupt => .corrupt
    | .unavailable => .unavailable
  else .notFound

/-- Modelled from the spec: `exists(key)` on a single store is true iff the
index contains the key; it does not validate payload integrity. -/
def Store.existsKey (s : Store) (k : Key) : Bool :=
  s.index k

/-- Modelled from the spec: union iteration over the ordered store list; the
first store whose `getDelta` succeeds wins, and per-store soft failures
(`Corrupt`, `Unavailable`) as well as `NotFound` cause that store to be
treated as "does not have this key" for this query. -/
def unionFetch : List Store → Key → Option Delta
  | [], _ => none
  | s :: rest, k =>
    match s.getDelta k with
    | .found d => some d
    | _ => unionFetch rest k

/-- Modelled from the spec: result of resolving a key through the union:
full content, or one of the error taxonomy `NotFound`, `BrokenChain`,
`ChainTooLong`, `Corrupt`, `Unavailable`. -/
inductive RResult where
  | ok (c : Content)
  | notFound
  | brokenChain
  | chainTooLong
  | corrupt
  | unavailable
deriving DecidableEq, Repr

/-- Modelled from the spec: apply the accumulated delta payloads in chain
order onto a base content: the payload fetched last (nearest the snapshot)
is applied first, replaying the chain from the base outward. -/
def applyAccum (applyD : Content → Payload → Content) (acc : List Payload)
    (snap : Content) : Content :=
  acc.foldr (fun p c => applyD c p) snap

/-- Modelled from the spec: the delta-chain resolver.  Starting from the
requested key with an empty accumulator, each hop fetches the first
available delta for the current key across the union, appends its payload to
the accumulator, and follows `base_key`; a full snapshot terminates the walk
and the accumulated deltas are applied onto it in chain order.  A missing
first hop is `NotFound`; a missing later hop is `BrokenChain`; exhausting
the chain-length budget is `ChainTooLong`, never a silent truncation. -/
def resolveFrom (applyD : Content → Payload → Content) (stores : List Store) :
    Nat → List Payload → Key → RResult
  | 0, _, _ => .chainTooLong
  | fuel + 1, acc, current =>
    match unionFetch stores current with
    | none => if acc.isEmpty then .notFound else .brokenChain
    | some d =>
      match d.base with
      | none => .ok (applyAccum applyD acc d.payload)
      | some b => resolveFrom applyD stores fuel (acc ++ [d.payload]) b

/-- Modelled from the spec: resolve a key against a store list under the
configured maximum chain length. -/
def resolve (applyD : Content → Payload → Content) (stores : List Store)
    (maxChain : Nat) (k : Key) : RResult :=
  resolveFrom applyD stores maxChain [] k

/-- Modelled from the spec: the resolver instrumented with the number of
delta hops it actually performed, used to state the chain-length bound. -/
def resolveFromN (applyD : Content → Payload → Content) (stores : List Store) :
    Nat → List Payload → Key → RResult × Nat
  | 0, _, _ => (.chainTooLong, 0)
  | fuel + 1, acc, current =>
    match unionFetch stores current with
    | none => (if acc.isEmpty then .notFound else .brokenChain, 0)
    | some d =>
      match d.base with
      | none => (.ok (applyAccum applyD acc d.payload), 1)
      | some b =>
        let r := resolveFromN applyD stores fuel (acc ++ [d.payload]) b
        (r.1, r.2 + 1)

/-- Modelled from the spec: the UnionStore state: an ordered list of member
stores (its only mutable state) and the configured maximum chain length. -/
structure UnionStore where
  stores : List Store
  maxChain : Nat

/-- Modelled from the spec: `addStore(store)` appends to the end of the
list; new stores are consulted only after all existing ones. -/
def addStore (u : UnionStore) (s : Store) : UnionStore :=
  { u with stores := u.stores ++ [s] }

/-- Modelled from the spec: the internal refresh re-scans for newly
available stores/packs and appends any new ones to the end of the list,
preserving existing order and never removing a store. -/
def refreshU (u : UnionStore) (discovered : List Store) : UnionStore :=
  { u with stores := u.stores ++ discovered }

/-- Modelled from the spec: `get(key)` runs the resolution algorithm across
the current store list; a `NotFound` triggers exactly one refresh and one
retry, whose failure surfaces as `NotFound`; hard failures (`BrokenChain`,
`ChainTooLong`) surface immediately without a refresh.  The result carries
the post-call store state and the number of refreshes performed. -/
def UnionStore.get (applyD : Content → Payload → Content) (u : UnionStore)
    (discovered : List Store) (k : Key) : RResult × UnionStore × Nat :=
  match resolve applyD u.stores u.maxChain k with
  | .notFound =>
    let u2 := refreshU u discovered
    (resolve applyD u2.stores u2.maxChain k, u2, 1)
  | r => (r, u, 0)

/-- Modelled from the spec: `exists(key)` on the union short-circuits on the
first store reporting true. -/
def UnionStore.existsKey (u : UnionStore) (k : Key) : Bool :=
  u.stores.any (fun s => s.existsKey k)

/-- Modelled from the spec: the full observable effect of an `exists` call:
its boolean answer and the (unchanged) union state — `exists` does not
itself trigger a refresh. -/
def UnionStore.existsOp (u : UnionStore) (k : Key) : Bool × UnionStore :=
  (u.existsKey k, u)

/-- Modelled from the spec: a well-formed delta chain for a key materialized
across the member stores: each listed delta is the one union iteration
yields for the current key, every non-terminal delta's base key continues
the chain, and the final delta is a full snapshot. -/
def IsChain (stores : List Store) : Key → List Delta → Prop
  | _, [] => False
  | k, [d] => unionFetch stores k = some d ∧ d.base = none
  | k, d :: d2 :: rest =>
    unionFetch stores k = some d ∧
      ∃ b, d.base = some b ∧ IsChain stores b (d2 :: rest)

/-- Modelled from the spec: the reference reconstruction for a chain: the
terminating snapshot's payload with every earlier delta applied in chain
order, from the base outward. -/
def chainContent (applyD : Content → Payload → Content) : List Delta → Content
  | [] => []
  | [d] => d.payload
  | d :: d2 :: rest => applyD (chainContent applyD (d2 :: rest)) d.payload

/-- Applying an accumulator split in two is applying the later part first. -/
theorem applyAccum_append (applyD : Content → Payload → Content)
    (l1 l2 : List Payload) (snap : Content) :
    applyAccum applyD (l1 ++ l2) snap =
      applyAccum applyD l1 (applyAccum applyD l2 snap) :=
  List.foldr_append _ _ _ _

/-- The resolver, run with enough fuel on a key holding a well-formed chain,
returns the chain's reference reconstruction applied under the pending
accumulator. -/
theorem resolveFrom_chain (applyD : Content → Payload → Content)
    (stores : List Store) (ds : List Delta) :
    ∀ (k : Key) (acc : List Payload) (fuel : Nat), IsChain stores k ds →
      ds.length ≤ fuel →
      resolveFrom applyD stores fuel acc k =
        .ok (applyAccum applyD acc (chainContent applyD ds)) := by
  induction ds with
  | nil => intro k acc fuel h _; exact absurd h id
  | cons d rest ih =>
    intro k acc fuel h hlen
    cases rest with
    | nil =>
      obtain ⟨hf, hb⟩ := h
      cases fuel with
      | zero => exact absurd hlen (by simp)
      | succ f => simp [resolveFrom, hf, hb, chainContent]
    | cons d2 rest2 =>
      obtain ⟨hf, b, hb, hch⟩ := h
      cases fuel with
      | zero => exact absurd hlen (by simp)
      | succ f =>
        have hstep : resolveFrom applyD stores (f + 1) acc k =
            resolveFrom applyD stores f (acc ++ [d.payload]) b := by
          simp [resolveFrom, hf, hb]
        rw [hstep, ih b (acc ++ [d.payload]) f hch (by
          simpa using Nat.succ_le_succ_iff.mp hlen)]
        rw [applyAccum_append]
        rfl

/-- C1: for every key whose delta chain of length N is materialized across
the member stores (each hop resolved by union iteration, possibly in a
different store), `get`'s resolution returns content identical to applying
the N deltas of the chain, in the fixed documented order, onto the
terminating full snapshot. -/
theorem get_reconstructs_chain (applyD : Content → Payload → Content)
    (stores : List Store) (maxChain : Nat) (k : Key) (ds : List Delta)
    (hchain : IsChain stores k ds) (hlen : ds.length ≤ maxChain) :
    resolve applyD stores maxChain k = .ok (chainContent applyD ds) := by
  have h := resolveFrom_chain applyD stores ds k [] maxChain hchain hlen
  simpa [resolve, applyAccum] using h

/-- First witness store: holds key 10 (a delta based on key 11) and key 12
(the terminating full snapshot). -/
def wStoreA : Store :=
  ⟨fun k => k == 10 || k == 12,
   fun k =>
     if k == 10 then .good ⟨some 11, [1, 2]⟩
     else if k == 12 then .good ⟨none, [7, 8]⟩
     else .corrupt⟩

/-- Second witness store: holds key 11, a delta based on key 12. -/
def wStoreB : Store :=
  ⟨fun k => k == 11,
   fun k => if k == 11 then .good ⟨some 12, [3]⟩ else .corrupt⟩

/-- C1 witness: a synthetic chain of length 3 spread across 2 stores
(10 → 11 in store A, 11 → 12 in store B, snapshot 12 back in store A)
reconstructs to the snapshot with both deltas applied in chain order. -/
theorem get_reconstructs_chain_witness :
    resolve (fun c p => c ++ p) [wStoreA, wStoreB] 1000 10 =
      .ok [7, 8, 3, 1, 2] :=
  get_reconstructs_chain (fun c p => c ++ p) [wStoreA, wStoreB] 1000 10
    [⟨some 11, [1, 2]⟩, ⟨some 12, [3]⟩, ⟨none, [7, 8]⟩]
    ⟨by decide, 11, rfl, by decide, 12, rfl, by decide, rfl⟩ (by decide)

/-- Concrete byte-level delta application used by the witnesses. -/
def wApply : Content → Payload → Content := fun c p => c ++ p

/-- C2: when the first resolution pass fails with `NotFound`, `get` performs
exactly one refresh followed by exactly one retry, a second `NotFound` is
reported to the caller as `NotFound` (a value of the result type, not an
escaping exception or a default), and no call to `get` ever performs more
than one refresh. -/
theorem get_refresh_once (applyD : Content → Payload → Content)
    (u : UnionStore) (disc : List Store) (k : Key)
    (h1 : resolve applyD u.stores u.maxChain k = .notFound) :
    (UnionStore.get applyD u disc k).2.2 = 1 ∧
    (resolve applyD (refreshU u disc).stores u.maxChain k = .notFound →
      UnionStore.get applyD u disc k = (.notFound, refreshU u disc, 1)) ∧
    ∀ (u0 : UnionStore) (d0 : List Store) (k0 : Key),
      (UnionStore.get applyD u0 d0 k0).2.2 ≤ 1 := by
  refine ⟨?_, ?_, ?_⟩
  · simp [UnionStore.get, h1]
  · intro h2
    simp [UnionStore.get, h1]
    exact h2
  · intro u0 d0 k0
    unfold UnionStore.get
    cases h : resolve applyD u0.stores u0.maxChain k0 <;> simp

/-- C2 witness: a union with no stores that discovers nothing on refresh
reports `NotFound` after exactly one refresh. -/
theorem get_refresh_once_witness :
    (UnionStore.get wApply ⟨[], 5⟩ [] 99).2.2 = 1 ∧
    UnionStore.get wApply ⟨[], 5⟩ [] 99 = (.notFound, refreshU ⟨[], 5⟩ [], 1) := by
  have h := get_refresh_once wApply ⟨[], 5⟩ [] 99 (by decide)
  exact ⟨h.1, h.2.1 (by decide)⟩

/-- The instrumented resolver never performs more hops than the fuel it was
given, and exhausting the fuel yields zero further hops. -/
theorem resolveFromN_hops_le (applyD : Content → Payload → Content)
    (stores : List Store) :
    ∀ (fuel : Nat) (acc : List Payload) (k : Key),
      (resolveFromN applyD stores fuel acc k).2 ≤ fuel := by
  intro fuel
  induction fuel with
  | zero => intro acc k; simp [resolveFromN]
  | succ f ih =>
    intro acc k
    cases h : unionFetch stores k with
    | none => simp [resolveFromN, h]
    | some d =>
      cases hb : d.base with
      | none => simp [resolveFromN, h, hb]
      | some b =>
        simp only [resolveFromN, h, hb]
        exact Nat.succ_le_succ (ih _ _)

/-- The instrumented resolver computes exactly the resolver's answer. -/
theorem resolveFromN_fst (applyD : Content → Payload → Content)
    (stores : List Store) :
    ∀ (fuel : Nat) (acc : List Payload) (k : Key),
      (resolveFromN applyD stores fuel acc k).1 =
        resolveFrom applyD stores fuel acc k := by
  intro fuel
  induction fuel with
  | zero => intro acc k; simp [resolveFromN, resolveFrom]
  | succ f ih =>
    intro acc k
    cases h : unionFetch stores k with
    | none => simp [resolveFromN, resolveFrom, h]
    | some d =>
      cases hb : d.base with
      | none => simp [resolveFromN, resolveFrom, h, hb]
      | some b =>
        simp only [resolveFromN, resolveFrom, h, hb]
        exact ih _ _

/-- On a two-cycle (key a's delta based on b, key b's delta based on a) the
resolver burns all its fuel and fails `ChainTooLong`, whatever the fuel. -/
theorem resolveFrom_cycle (applyD : Content → Payload → Content)
    (stores : List Store) (a b : Key) (d1 d2 : Delta)
    (h1 : unionFetch stores a = some d1) (h2 : d1.base = some b)
    (h3 : unionFetch stores b = some d2) (h4 : d2.base = some a) :
    ∀ fuel : Nat,
      (∀ acc, resolveFrom applyD stores fuel acc a = .chainTooLong) ∧
      (∀ acc, resolveFrom applyD stores fuel acc b = .chainTooLong) := by
  intro fuel
  induction fuel with
  | zero => exact ⟨fun _ => rfl, fun _ => rfl⟩
  | succ f ih =>
    constructor
    · intro acc
      simp only [resolveFrom, h1, h2]
      exact ih.2 _
    · intro acc
      simp only [resolveFrom, h3, h4]
      exact ih.1 _

/-- C3: the resolver terminates on every input: it is a total function whose
hop count never exceeds the configured maximum chain length, an exhausted
budget yields `ChainTooLong` (never a silently truncated result), and on a
cyclic chain (a based on b, b based on a) it fails `ChainTooLong` for every
configured maximum. -/
theorem resolver_terminates (applyD : Content → Payload → Content)
    (stores : List Store) (maxChain : Nat) (a b : Key) (d1 d2 : Delta)
    (h1 : unionFetch stores a = some d1) (h2 : d1.base = some b)
    (h3 : unionFetch stores b = some d2) (h4 : d2.base = some a) :
    resolve applyD stores maxChain a = .chainTooLong ∧
    (∀ (fuel : Nat) (acc : List Payload) (k : Key),
      (resolveFromN applyD stores fuel acc k).2 ≤ fuel ∧
      (resolveFromN applyD stores fuel acc k).1 =
        resolveFrom applyD stores fuel acc k) ∧
    ∀ (acc : List Payload) (k : Key),
      resolveFrom applyD stores 0 acc k = .chainTooLong := by
  refine ⟨?_, ?_, ?_⟩
  · exact (resolveFrom_cycle applyD stores a b d1 d2 h1 h2 h3 h4 maxChain).1 []
  · intro fuel acc k
    exact ⟨resolveFromN_hops_le applyD stores fuel acc k,
      resolveFromN_fst applyD stores fuel acc k⟩
  · intro acc k
    rfl

/-- Witness store containing a two-cycle: key 20's delta is based on key 21
and key 21's delta is based on key 20. -/
def wStoreCyc : Store :=
  ⟨fun k => k == 20 || k == 21,
   fun k =>
     if k == 20 then .good ⟨some 21, [0]⟩
     else if k == 21 then .good ⟨some 20, [0]⟩
     else .corrupt⟩

/-- C3 witness: on the concrete cyclic store the resolver answers
`ChainTooLong` under the default generous maximum, and a run with fuel 7
performs at most 7 hops. -/
theorem resolver_terminates_witness :
    resolve wApply [wStoreCyc] 1000 20 = .chainTooLong ∧
    (resolveFromN wApply [wStoreCyc] 7 [] 20).2 ≤ 7 := by
  have h := resolver_terminates wApply [wStoreCyc] 1000 20 21
    ⟨some 21, [0]⟩ ⟨some 20, [0]⟩ (by decide) rfl (by decide) rfl
  exact ⟨h.1, (h.2.1 7 [] 20).1⟩

/-- C4: a key that resolves at least one delta hop but whose next base key
is fetchable from no member store fails `BrokenChain` — distinct from
`NotFound` — and `get` surfaces it immediately, with zero refreshes and the
store list untouched. -/
theorem broken_chain_surfaced (applyD : Content → Payload → Content)
    (u : UnionStore) (disc : List Store) (k b : Key) (d : Delta)
    (h1 : unionFetch u.stores k = some d) (h2 : d.base = some b)
    (h3 : unionFetch u.stores b = none) (h4 : 2 ≤ u.maxChain) :
    resolve applyD u.stores u.maxChain k = .brokenChain ∧
    UnionStore.get applyD u disc k = (.brokenChain, u, 0) ∧
    RResult.brokenChain ≠ RResult.notFound := by
  obtain ⟨m, hm⟩ : ∃ m, u.maxChain = m + 2 :=
    ⟨u.maxChain - 2, by omega⟩
  have hres : resolve applyD u.stores u.maxChain k = .brokenChain := by
    rw [resolve, hm]
    simp [resolveFrom, h1, h2, h3]
  refine ⟨hres, ?_, by simp⟩
  simp [UnionStore.get, hres]

/-- Witness store for a broken chain: key 30's delta is based on key 31,
which no store holds. -/
def wStoreBroken : Store :=
  ⟨fun k => k == 30,
   fun k => if k == 30 then .good ⟨some 31, [5]⟩ else .corrupt⟩

/-- C4 witness: on the concrete store with a dangling base key, `get`
returns `BrokenChain` immediately with no refresh. -/
theorem broken_chain_surfaced_witness :
    UnionStore.get wApply ⟨[wStoreBroken], 1000⟩ [] 30 =
      (.brokenChain, ⟨[wStoreBroken], 1000⟩, 0) :=
  (broken_chain_surfaced wApply ⟨[wStoreBroken], 1000⟩ [] 30 31
    ⟨some 31, [5]⟩ (by decide) rfl (by decide) (by decide)).2.1

/-- A store whose `getDelta` soft-fails (`Corrupt` or `Unavailable`) for a
key is skipped by union iteration exactly as if it did not hold the key. -/
theorem unionFetch_skip (s : Store) (rest : List Store) (k : Key)
    (hs : s.getDelta k = .corrupt ∨ s.getDelta k = .unavailable) :
    unionFetch (s :: rest) k = unionFetch rest k := by
  cases hs with
  | inl h => simp [unionFetch, h]
  | inr h => simp [unionFetch, h]

/-- The resolver never answers `Corrupt` or `Unavailable`: per-store soft
failures are absorbed during iteration, not propagated. -/
theorem resolveFrom_ne_soft (applyD : Content → Payload → Content)
    (stores : List Store) :
    ∀ (fuel : Nat) (acc : List Payload) (k : Key),
      resolveFrom applyD stores fuel acc k ≠ .corrupt ∧
      resolveFrom applyD stores fuel acc k ≠ .unavailable := by
  intro fuel
  induction fuel with
  | zero => intro acc k; exact ⟨by simp [resolveFrom], by simp [resolveFrom]⟩
  | succ f ih =>
    intro acc k
    cases h : unionFetch stores k with
    | none =>
      refine ⟨?_, ?_⟩ <;>
        · simp only [resolveFrom, h]
          split <;> simp
    | some d =>
      cases hb : d.base with
      | none => exact ⟨by simp [resolveFrom, h, hb], by simp [resolveFrom, h, hb]⟩
      | some b =>
        simp only [resolveFrom, h, hb]
        exact ih _ _

/-- A `get` call never surfaces `Corrupt` or `Unavailable` from the union. -/
theorem get_ne_soft (applyD : Content → Payload → Content) (u : UnionStore)
    (disc : List Store) (k : Key) :
    (UnionStore.get applyD u disc k).1 ≠ .corrupt ∧
    (UnionStore.get applyD u disc k).1 ≠ .unavailable := by
  unfold UnionStore.get
  cases h : resolve applyD u.stores u.maxChain k with
  | notFound => exact resolveFrom_ne_soft applyD _ _ _ _
  | corrupt => exact absurd h (resolveFrom_ne_soft applyD _ _ _ _).1
  | unavailable => exact absurd h (resolveFrom_ne_soft applyD _ _ _ _).2
  | ok c => exact ⟨by simp, by simp⟩
  | brokenChain => exact ⟨by simp, by simp⟩
  | chainTooLong => exact ⟨by simp, by simp⟩

/-- C5: a member store that fails `Corrupt` or `Unavailable` for a key is
treated during union iteration as if it did not hold the key, a later
member store that legitimately holds the key still answers successfully,
and `Corrupt`/`Unavailable` are never propagated as hard errors from the
union. -/
theorem soft_failures_absorbed (applyD : Content → Payload → Content)
    (s1 s2 : Store) (rest : List Store) (k : Key) (d : Delta) (maxChain : Nat)
    (hs : s1.getDelta k = .corrupt ∨ s1.getDelta k = .unavailable)
    (h2 : s2.getDelta k = .found d) (hb : d.base = none)
    (hm : 1 ≤ maxChain) :
    (∀ rest0 : List Store, unionFetch (s1 :: rest0) k = unionFetch rest0 k) ∧
    resolve applyD (s1 :: s2 :: rest) maxChain k = .ok d.payload ∧
    (∀ (stores : List Store) (mc : Nat) (k0 : Key),
      resolve applyD stores mc k0 ≠ .corrupt ∧
      resolve applyD stores mc k0 ≠ .unavailable) ∧
    ∀ (u : UnionStore) (disc : List Store) (k0 : Key),
      (UnionStore.get applyD u disc k0).1 ≠ .corrupt ∧
      (UnionStore.get applyD u disc k0).1 ≠ .unavailable := by
  refine ⟨fun rest0 => unionFetch_skip s1 rest0 k hs, ?_, ?_, ?_⟩
  · obtain ⟨m, hmeq⟩ : ∃ m, maxChain = m + 1 := ⟨maxChain - 1, by omega⟩
    have hfetch : unionFetch (s1 :: s2 :: rest) k = some d := by
      rw [unionFetch_skip s1 _ k hs]
      simp [unionFetch, h2]
    rw [resolve, hmeq]
    simp [resolveFrom, hfetch, hb, applyAccum]
  · intro stores mc k0
    exact resolveFrom_ne_soft applyD stores mc [] k0
  · intro u disc k0
    exact get_ne_soft applyD u disc k0

/-- Witness store that reports `Corrupt` for every indexed key. -/
def wStoreCorrupt : Store :=
  ⟨fun k => k == 40, fun _ => .corrupt⟩

/-- Witness store legitimately holding key 40 as a full snapshot. -/
def wStoreGood : Store :=
  ⟨fun k => k == 40,
   fun k => if k == 40 then .good ⟨none, [9]⟩ else .corrupt⟩

/-- C5 witness: with a corrupt store first in the list, key 40 still
resolves from the healthy sibling. -/
theorem soft_failures_absorbed_witness :
    resolve wApply [wStoreCorrupt, wStoreGood] 1000 40 = .ok [9] :=
  (soft_failures_absorbed wApply wStoreCorrupt wStoreGood [] 40
    ⟨none, [9]⟩ 1000 (Or.inl (by decide)) (by decide) rfl (by decide)).2.1

/-- C6: the store list is append-only: `addStore` appends a single store at
the end, the internal refresh appends the newly discovered stores at the
end, both preserve the existing order and the configured maximum chain
length, and the state produced by any `get` call extends the original list
by a (possibly empty) suffix, never removing a store. -/
theorem store_list_append_only (applyD : Content → Payload → Content)
    (u : UnionStore) (s : Store) (found disc : List Store) (k : Key) :
    (addStore u s).stores = u.stores ++ [s] ∧
    (refreshU u found).stores = u.stores ++ found ∧
    (addStore u s).maxChain = u.maxChain ∧
    (refreshU u found).maxChain = u.maxChain ∧
    ∃ t, ((UnionStore.get applyD u disc k).2.1).stores = u.stores ++ t := by
  refine ⟨rfl, rfl, rfl, rfl, ?_⟩
  unfold UnionStore.get
  cases h : resolve applyD u.stores u.maxChain k with
  | notFound => exact ⟨disc, rfl⟩
  | ok c => exact ⟨[], by simp [refreshU]⟩
  | brokenChain => exact ⟨[], by simp [refreshU]⟩
  | chainTooLong => exact ⟨[], by simp [refreshU]⟩
  | corrupt => exact ⟨[], by simp [refreshU]⟩
  | unavailable => exact ⟨[], by simp [refreshU]⟩

/-- Appending stores at the end of the list never changes the delta a key
already fetches: the first match still wins. -/
theorem unionFetch_extend (stores ext : List Store) (k : Key) (d : Delta)
    (h : unionFetch stores k = some d) :
    unionFetch (stores ++ ext) k = some d := by
  induction stores with
  | nil => exact absurd h (by simp [unionFetch])
  | cons s rest ih =>
    cases hg : s.getDelta k with
    | found d0 =>
      have : some d0 = some d := by simpa [unionFetch, hg] using h
      simpa [unionFetch, hg] using this
    | notFound =>
      have h' : unionFetch rest k = some d := by simpa [unionFetch, hg] using h
      simpa [unionFetch, hg] using ih h'
    | corrupt =>
      have h' : unionFetch rest k = some d := by simpa [unionFetch, hg] using h
      simpa [unionFetch, hg] using ih h'
    | unavailable =>
      have h' : unionFetch rest k = some d := by simpa [unionFetch, hg] using h
      simpa [unionFetch, hg] using ih h'

/-- A successful resolution is stable under appending stores at the end:
every hop that already resolved keeps resolving to the same delta. -/
theorem resolveFrom_extend (applyD : Content → Payload → Content)
    (stores ext : List Store) :
    ∀ (fuel : Nat) (acc : List Payload) (k : Key) (c : Content),
      resolveFrom applyD stores fuel acc k = .ok c →
      resolveFrom applyD (stores ++ ext) fuel acc k = .ok c := by
  intro fuel
  induction fuel with
  | zero => intro acc k c h; exact absurd h (by simp [resolveFrom])
  | succ f ih =>
    intro acc k c h
    cases hf : unionFetch stores k with
    | none =>
      simp only [resolveFrom, hf] at h
      split at h <;> exact absurd h (by simp)
    | some d =>
      have hf2 := unionFetch_extend stores ext k d hf
      cases hb : d.base with
      | none =>
        simp only [resolveFrom, hf, hb] at h
        simp only [resolveFrom, hf2, hb]
        exact h
      | some b =>
        simp only [resolveFrom, hf, hb] at h
        simp only [resolveFrom, hf2, hb]
        exact ih _ _ _ h

/-- A `get` that returned content left the union in a state whose store list
resolves that key directly to the same content. -/
theorem get_ok_resolve (applyD : Content → Payload → Content)
    (u u' : UnionStore) (disc : List Store) (k : Key) (c : Content) (n : Nat)
    (h : UnionStore.get applyD u disc k = (.ok c, u', n)) :
    resolve applyD u'.stores u'.maxChain k = .ok c := by
  unfold UnionStore.get at h
  cases h0 : resolve applyD u.stores u.maxChain k with
  | notFound =>
    rw [h0] at h
    simp only [Prod.mk.injEq] at h
    obtain ⟨h1, h2, -⟩ := h
    rw [← h2]
    exact h1
  | ok c0 =>
    rw [h0] at h
    simp only [Prod.mk.injEq] at h
    obtain ⟨h1, h2, -⟩ := h
    rw [← h2, ← h1]
    exact h0
  | brokenChain => rw [h0] at h; simp at h
  | chainTooLong => rw [h0] at h; simp at h
  | corrupt => rw [h0] at h; simp at h
  | unavailable => rw [h0] at h; simp at h

/-- No `get` call ever performs more than one refresh. -/
theorem get_refreshCount_le (applyD : Content → Payload → Content)
    (u : UnionStore) (disc : List Store) (k : Key) :
    (UnionStore.get applyD u disc k).2.2 ≤ 1 := by
  unfold UnionStore.get
  cases h : resolve applyD u.stores u.maxChain k <;> simp

/-- C7: resolvability is monotone under `addStore`: if a `get` resolved a
key to some content, the same `get` against the post-call state with any
further store appended still resolves the key to the same content, on its
first pass and with no refresh — a newly added store never shadows an
earlier-priority store. -/
theorem get_monotone_addStore (applyD : Content → Payload → Content)
    (u u' : UnionStore) (disc disc2 : List Store) (s : Store) (k : Key)
    (c : Content) (n : Nat)
    (h : UnionStore.get applyD u disc k = (.ok c, u', n)) :
    UnionStore.get applyD (addStore u' s) disc2 k = (.ok c, addStore u' s, 0) := by
  have hres : resolve applyD u'.stores u'.maxChain k = .ok c :=
    get_ok_resolve applyD u u' disc k c n h
  have hres2 : resolve applyD (addStore u' s).stores (addStore u' s).maxChain k =
      .ok c :=
    resolveFrom_extend applyD u'.stores [s] u'.maxChain [] k c hres
  simp [UnionStore.get, hres2]

/-- C7 witness: key 10 resolved before `addStore`; after appending the
cyclic store the same content is still returned with no refresh. -/
theorem get_monotone_addStore_witness :
    UnionStore.get wApply (addStore ⟨[wStoreA, wStoreB], 1000⟩ wStoreCyc) [] 10 =
      (.ok [7, 8, 3, 1, 2], addStore ⟨[wStoreA, wStoreB], 1000⟩ wStoreCyc, 0) :=
  get_monotone_addStore wApply ⟨[wStoreA, wStoreB], 1000⟩
    ⟨[wStoreA, wStoreB], 1000⟩ [] [] wStoreCyc 10 [7, 8, 3, 1, 2] 0 rfl

/-- C8: `get` is idempotent: after a `get` that returned content, repeating
the call with no intervening `addStore` returns byte-identical content,
leaves the state unchanged and performs zero refreshes; and every `get`
call, succeeding or failing, performs at most one refresh. -/
theorem get_idempotent (applyD : Content → Payload → Content)
    (u u' : UnionStore) (disc disc2 : List Store) (k : Key) (c : Content)
    (n : Nat) (h : UnionStore.get applyD u disc k = (.ok c, u', n)) :
    UnionStore.get applyD u' disc2 k = (.ok c, u', 0) ∧ n ≤ 1 ∧
    ∀ (u0 : UnionStore) (d0 : List Store) (k0 : Key),
      (UnionStore.get applyD u0 d0 k0).2.2 ≤ 1 := by
  have hres : resolve applyD u'.stores u'.maxChain k = .ok c :=
    get_ok_resolve applyD u u' disc k c n h
  refine ⟨by simp [UnionStore.get, hres], ?_, fun u0 d0 k0 => get_refreshCount_le applyD u0 d0 k0⟩
  have := get_refreshCount_le applyD u disc k
  rw [h] at this
  exact this

/-- C8 witness: repeating the successful `get` of key 10 returns the same
bytes, the same state, and triggers no refresh. -/
theorem get_idempotent_witness :
    UnionStore.get wApply ⟨[wStoreA, wStoreB], 1000⟩ [] 10 =
      (.ok [7, 8, 3, 1, 2], ⟨[wStoreA, wStoreB], 1000⟩, 0) ∧ (0 : Nat) ≤ 1 :=
  ⟨(get_idempotent wApply ⟨[wStoreA, wStoreB], 1000⟩
      ⟨[wStoreA, wStoreB], 1000⟩ [] [] 10 [7, 8, 3, 1, 2] 0 rfl).1,
   (get_idempotent wApply ⟨[wStoreA, wStoreB], 1000⟩
      ⟨[wStoreA, wStoreB], 1000⟩ [] [] 10 [7, 8, 3, 1, 2] 0 rfl).2.1⟩

/-- C9: `exists` on the union answers true for every key present in at
least one member store, is already true at the first store reporting true
regardless of the stores after it, never changes the union state (no
refresh), and for a single store equals the index lookup. -/
theorem exists_union (u : UnionStore) (k : Key) (s : Store)
    (hs : s ∈ u.stores) (hk : s.index k = true) :
    u.existsKey k = true ∧
    (∀ (s0 : Store) (rest : List Store) (mc : Nat) (k0 : Key),
      s0.index k0 = true →
      UnionStore.existsKey ⟨s0 :: rest, mc⟩ k0 = true) ∧
    (∀ (u0 : UnionStore) (k0 : Key),
      UnionStore.existsOp u0 k0 = (u0.existsKey k0, u0)) ∧
    ∀ (s0 : Store) (mc : Nat) (k0 : Key),
      UnionStore.existsKey ⟨[s0], mc⟩ k0 = s0.index k0 := by
  refine ⟨?_, ?_, fun u0 k0 => rfl, ?_⟩
  · simp only [UnionStore.existsKey, Store.existsKey, List.any_eq_true]
    exact ⟨s, hs, hk⟩
  · intro s0 rest mc k0 h0
    simp [UnionStore.existsKey, Store.existsKey, h0]
  · intro s0 mc k0
    simp [UnionStore.existsKey, Store.existsKey]

/-- C9 witness: key 10 is indexed by the first witness store, so the union
reports it as existing. -/
theorem exists_union_witness :
    UnionStore.existsKey ⟨[wStoreA, wStoreB], 5⟩ 10 = true :=
  (exists_union ⟨[wStoreA, wStoreB], 5⟩ 10 wStoreA (by simp) rfl).1

/-- Modelled from the spec: an identifier for a host-runtime object wrapped
by an ExternalStoreAdapter (the `PythonObj`/`PythonDataStore` references the
`py_uniondatapackstore` struct keeps so it "can decref them later"). -/
abbrev HostObj := Nat

/-- Modelled from the spec: the lifetime state of an ExternalStoreAdapter:
while alive it holds a strong keep-alive reference to the host-side store
object; after destruction the reference is released. -/
inductive AdapterState where
  | alive (hostRef : HostObj)
  | destroyed
deriving DecidableEq, Repr

/-- Modelled from the spec: the observable lifetime events of an adapter: a
call through it (`exists`/`getDelta`/`getDeltaChainBase`) or its
destruction. -/
inductive AdapterEvent where
  | call
  | destroy
deriving DecidableEq, Repr

/-- Modelled from the spec: the strong reference an adapter currently
holds, if any. -/
def heldRef : AdapterState → Option HostObj
  | .alive h => some h
  | .destroyed => none

/-- Modelled from the spec: lifetime transitions of an adapter: calls leave
the keep-alive reference untouched; only destruction releases it. -/
def adapterStep : AdapterState → AdapterEvent → AdapterState
  | .alive h, .call => .alive h
  | .alive _, .destroy => .destroyed
  | .destroyed, _ => .destroyed

/-- Modelled from the spec: an adapter driven through a sequence of
lifetime events. -/
def adapterRun (st : AdapterState) (evs : List AdapterEvent) : AdapterState :=
  evs.foldl adapterStep st

/-- The binding-layer struct of `py-structs.h`: the shared union store
together with the host-side object references it keeps alive for its own
lifetime. -/
structure PyUnionDatapackStore where
  uniondatapackstore : UnionStore
  cstores : List HostObj
  pystores : List HostObj

/-- C10: an adapter wrapping a host-supplied store holds the strong
keep-alive reference to the host object throughout its lifetime: any
sequence of calls leaves the reference in place unchanged, destruction
releases it, and a step releases the reference only if the adapter was
already destroyed or the step is the destruction itself — never before. -/
theorem adapter_keepalive (h : HostObj) (evs : List AdapterEvent)
    (hc : ∀ e ∈ evs, e = AdapterEvent.call) :
    heldRef (adapterRun (.alive h) evs) = some h ∧
    heldRef (adapterStep (.alive h) .destroy) = none ∧
    ∀ (st : AdapterState) (e : AdapterEvent),
      heldRef (adapterStep st e) = none →
      st = .destroyed ∨ e = .destroy := by
  refine ⟨?_, rfl, ?_⟩
  · induction evs with
    | nil => rfl
    | cons e rest ih =>
      have he : e = .call := hc e (by simp)
      rw [adapterRun, List.foldl_cons, he]
      exact ih fun e0 h0 => hc e0 (by simp [h0])
  · intro st e hrel
    cases st with
    | destroyed => exact Or.inl rfl
    | alive h0 =>
      cases e with
      | destroy => exact Or.inr rfl
      | call => exact absurd hrel (by simp [adapterStep, heldRef])

/-- C10 witness: across two calls the adapter still holds the reference to
host object 3, and only destruction releases it. -/
theorem adapter_keepalive_witness :
    heldRef (adapterRun (.alive 3) [.call, .call]) = some 3 ∧
    heldRef (adapterStep (.alive 3) .destroy) = none := by
  have h := adapter_keepalive 3 [.call, .call] (by decide)
  exact ⟨h.1, h.2.1⟩

end CStore
